import Mathlib

/-!
Shallow embedding of the chess-board core of `src/chess_game.py`
(classes `Color`, `PieceType`, `ChessPiece`, `ChessBoard`).

Python exceptions (in particular `IndexError` from list indexing) are
embedded as `Option`: a result of `none` means the Python call raises.
Python list indexing accepts negative indices down to `-len` (they wrap,
`xs[-1]` is the last element), and raises `IndexError` outside
`[-len, len)`; `pyIdx` embeds exactly that normalisation.

Pieces are mutable objects in Python whose grid cell exclusively owns
them; the embedding stores piece values directly in the grid cells and
models in-place field mutation by replacing the cell's value.  The
source mutates the moved piece's fields after placing the object in the
destination cell and clearing the source cell, so the destination cell
ends up holding the updated piece; writing the updated value at the
destination directly yields the same grid in every case (when source and
destination normalise to the same cell the source-clearing write erases
the piece either way; that situation never passes `is_valid_move`, whose
same-colour test sees the moving piece itself at the destination).
-/

namespace ChessGame

inductive Color where
  | WHITE
  | BLACK
deriving DecidableEq

/-- Turn flip of `move_piece` line 162: `Color.BLACK if self.current_turn == Color.WHITE else Color.WHITE`. -/
def Color.opposite : Color → Color
  | Color.WHITE => Color.BLACK
  | Color.BLACK => Color.WHITE

inductive PieceType where
  | PAWN
  | ROOK
  | KNIGHT
  | BISHOP
  | QUEEN
  | KING
deriving DecidableEq

/-- Embeds `ChessPiece._get_symbol`: the fixed lookup table keyed by (color, type). -/
def get_symbol : Color → PieceType → Char
  | Color.WHITE, PieceType.PAWN => '♙'
  | Color.WHITE, PieceType.ROOK => '♖'
  | Color.WHITE, PieceType.KNIGHT => '♘'
  | Color.WHITE, PieceType.BISHOP => '♗'
  | Color.WHITE, PieceType.QUEEN => '♕'
  | Color.WHITE, PieceType.KING => '♔'
  | Color.BLACK, PieceType.PAWN => '♟'
  | Color.BLACK, PieceType.ROOK => '♜'
  | Color.BLACK, PieceType.KNIGHT => '♞'
  | Color.BLACK, PieceType.BISHOP => '♝'
  | Color.BLACK, PieceType.QUEEN => '♛'
  | Color.BLACK, PieceType.KING => '♚'

/-- The state of a `ChessPiece` object: `type`, `color`, `row`, `col`,
`has_moved`, `symbol` (coordinates are Python ints). -/
structure ChessPiece where
  type : PieceType
  color : Color
  row : Int
  col : Int
  has_moved : Bool
  symbol : Char
deriving DecidableEq

/-- Embeds `ChessPiece.__init__(piece_type, color, row, col)`: `has_moved = False`,
`symbol = self._get_symbol()`. -/
def mkPiece (piece_type : PieceType) (color : Color) (row col : Int) : ChessPiece :=
  { type := piece_type, color := color, row := row, col := col,
    has_moved := false, symbol := get_symbol color piece_type }

/-- One entry of `move_history`: the dict
`{'piece': piece, 'from': (fr, fc), 'to': (tr, tc), 'captured': capture}`
(the piece field holds the value the reference had when the record was built). -/
structure MoveRecord where
  piece : ChessPiece
  fromPos : Int × Int
  toPos : Int × Int
  captured : Option ChessPiece
deriving DecidableEq

/-- The board's grid: a list of rows, each row a list of cells,
a cell being `none` (Python `None`) or an owned piece. -/
abbrev Grid : Type := List (List (Option ChessPiece))

/-- Python list-index normalisation for a list of length `n`: index `i`
is valid iff `-n ≤ i < n`; negative indices wrap by `+ n`; outside that
range indexing raises `IndexError` (`none`). -/
def pyIdx (n : Nat) (i : Int) : Option Nat :=
  if 0 ≤ i then (if i < (n : Int) then some i.toNat else none)
  else (if -(n : Int) ≤ i then some (i + (n : Int)).toNat else none)

/-- Length of row `k` of the grid (0 when `k` is out of range). -/
def rowLen (g : Grid) (k : Nat) : Nat := (List.getD g k []).length

/-- Normalised (row, col) pair addressed by `board[r][c]`, or `none`
when the access raises. -/
def pyIdx2 (g : Grid) (r c : Int) : Option (Nat × Nat) :=
  (pyIdx (List.length g) r).bind fun k => (pyIdx (rowLen g k) c).map fun l => (k, l)

/-- Cell content at already-normalised indices (total; out-of-range
reads `none`, but `pyIdx2` always supplies in-range indices). -/
def cellAtN (g : Grid) (k l : Nat) : Option ChessPiece :=
  List.getD (List.getD g k []) l none

/-- Reading `board[r][c]`: `none` = `IndexError`, `some cell` = the
cell's content. -/
def pyGet2 (g : Grid) (r c : Int) : Option (Option ChessPiece) :=
  (pyIdx2 g r c).map fun kl => cellAtN g kl.1 kl.2

/-- Writing `board[r][c] = v`: `none` = `IndexError`, else the
updated grid. -/
def pySet2 (g : Grid) (r c : Int) (v : Option ChessPiece) : Option Grid :=
  (pyIdx2 g r c).map fun kl => List.set g kl.1 (List.set (List.getD g kl.1 []) kl.2 v)

/-- The state of a `ChessBoard` object. -/
structure ChessBoard where
  size : Nat
  board : Grid
  current_turn : Color
  move_history : List MoveRecord
deriving DecidableEq

/-- Back rank placed by `_setup_board` for colour `c` on row `r`:
Rook, Knight, Bishop, Queen, King, Bishop, Knight, Rook on columns 0-7. -/
def backRank (c : Color) (r : Int) : List (Option ChessPiece) :=
  [some (mkPiece PieceType.ROOK c r 0),
   some (mkPiece PieceType.KNIGHT c r 1),
   some (mkPiece PieceType.BISHOP c r 2),
   some (mkPiece PieceType.QUEEN c r 3),
   some (mkPiece PieceType.KING c r 4),
   some (mkPiece PieceType.BISHOP c r 5),
   some (mkPiece PieceType.KNIGHT c r 6),
   some (mkPiece PieceType.ROOK c r 7)]

/-- Pawn rank placed by `_setup_board` for colour `c` on row `r`:
`for col in range(self.size): board[r][col] = ChessPiece(PAWN, c, r, col)`. -/
def pawnRank (c : Color) (r : Int) : List (Option ChessPiece) :=
  (List.range 8).map fun col => some (mkPiece PieceType.PAWN c r (col : Int))

/-- A row of 8 empty cells. -/
def emptyRank : List (Option ChessPiece) := List.replicate 8 none

/-- Embeds `ChessBoard.__init__` at the default `size = 8` followed by
`_setup_board`: black back rank on row 0, black pawns on row 1, white
pawns on row 6, white back rank on row 7, `current_turn = WHITE`,
`move_history = []`. -/
def initBoard : ChessBoard :=
  { size := 8,
    board := [backRank Color.BLACK 0, pawnRank Color.BLACK 1,
              emptyRank, emptyRank, emptyRank, emptyRank,
              pawnRank Color.WHITE 6, backRank Color.WHITE 7],
    current_turn := Color.WHITE,
    move_history := [] }

/-- Embeds `ChessBoard.is_valid_move(piece, new_row, new_col)`; `none` would
mean a raising grid access (impossible on well-formed grids since the
bounds test guards the read). -/
def is_valid_move (b : ChessBoard) (piece : ChessPiece) (new_row new_col : Int) : Option Bool :=
  if new_row < 0 ∨ (b.size : Int) ≤ new_row ∨ new_col < 0 ∨ (b.size : Int) ≤ new_col then
    some false
  else
    (pyGet2 b.board new_row new_col).map fun dest_piece =>
      match dest_piece with
      | some dp => decide ¬(dp.color = piece.color)
      | none => true

/-- Embeds `ChessBoard.move_piece(from_row, from_col, to_row, to_col)`:
returns `none` when a grid access raises, otherwise the boolean result
paired with the post-call board state. -/
def move_piece (b : ChessBoard) (from_row from_col to_row to_col : Int) :
    Option (Bool × ChessBoard) :=
  match pyGet2 b.board from_row from_col with
  | none => none
  | some none => some (false, b)
  | some (some piece) =>
    if ¬(piece.color = b.current_turn) then some (false, b)
    else
      match is_valid_move b piece to_row to_col with
      | none => none
      | some false => some (false, b)
      | some true =>
        match pyGet2 b.board to_row to_col with
        | none => none
        | some capture =>
          let record : MoveRecord :=
            { piece := piece, fromPos := (from_row, from_col),
              toPos := (to_row, to_col), captured := capture }
          let moved : ChessPiece :=
            { piece with row := to_row, col := to_col, has_moved := true }
          match pySet2 b.board to_row to_col (some moved) with
          | none => none
          | some g1 =>
            match pySet2 g1 from_row from_col none with
            | none => none
            | some g2 =>
              some (true, { b with
                            board := g2
                            current_turn := b.current_turn.opposite
                            move_history := b.move_history ++ [record] })

/-- Well-formed board shape, as maintained by every reachable state of
the program: `size = 8` and the grid is 8 rows of 8 cells. -/
def WF (b : ChessBoard) : Prop :=
  b.size = 8 ∧ List.length b.board = 8 ∧ ∀ k, k < 8 → rowLen b.board k = 8

instance (b : ChessBoard) : Decidable (WF b) := by
  unfold WF; infer_instance

/-- Coordinate coherence: every piece stored in a grid cell records that
cell's coordinates in its `row` / `col` fields. -/
def gridCoherent (g : Grid) : Prop :=
  ∀ k, k < List.length g → ∀ l, l < rowLen g k → ∀ p,
    cellAtN g k l = some p → p.row = (k : Int) ∧ p.col = (l : Int)

instance (g : Grid) : Decidable (gridCoherent g) := by
  unfold gridCoherent; infer_instance

/-- All pieces currently on the grid, row-major. -/
def gridPieces (g : Grid) : List ChessPiece :=
  List.foldr (fun row acc => row.filterMap id ++ acc) [] g

/-- Writing cell (k, l) of the grid, at already-normalised indices:
the grid produced by a successful `pySet2`. -/
def setCell (g : Grid) (k l : Nat) (v : Option ChessPiece) : Grid :=
  List.set g k (List.set (List.getD g k []) l v)

/-- Does cell (k, l) hold a piece of the same colour as `p`? -/
def sameColorAt (b : ChessBoard) (p : ChessPiece) (k l : Nat) : Bool :=
  match cellAtN b.board k l with
  | some q => decide (q.color = p.color)
  | none => false

/-- The board after the pawn advance `move_piece(6,4,4,4)` on a fresh
board (a successful non-capturing move, used as a concrete test state). -/
def pawnOpening : ChessBoard :=
  ((move_piece initBoard 6 4 4 4).getD (false, initBoard)).2

/-- The board after `move_piece(7,0,0,0)` on a fresh board: the white
rook "captures" the black rook across the whole file — geometrically
illegal in chess but accepted by this engine, and a successful capturing
move (used as a concrete test state). -/
def rookGrab : ChessBoard :=
  ((move_piece initBoard 7 0 0 0).getD (false, initBoard)).2

/-! ### Lemmas about the Python indexing primitives -/

theorem pyIdx_some_lt {n : Nat} {i : Int} {k : Nat} (h : pyIdx n i = some k) : k < n := by
  unfold pyIdx at h
  split at h
  all_goals split at h
  all_goals simp_all
  all_goals omega

theorem pyIdx_of_bounds {n : Nat} {i : Int} (h0 : 0 ≤ i) (h1 : i < (n : Int)) :
    pyIdx n i = some i.toNat := by
  unfold pyIdx
  rw [if_pos h0, if_pos h1]

theorem pyIdx_nonneg_eq {n : Nat} {i : Int} {k : Nat} (h0 : 0 ≤ i) (h : pyIdx n i = some k) :
    (k : Int) = i ∧ i < (n : Int) := by
  unfold pyIdx at h
  rw [if_pos h0] at h
  split at h
  all_goals simp_all
  omega

theorem pyIdx_isSome_iff {n : Nat} {i : Int} :
    (pyIdx n i).isSome ↔ (-(n : Int) ≤ i ∧ i < (n : Int)) := by
  unfold pyIdx
  split
  all_goals split
  all_goals simp
  all_goals omega

theorem getD_set_self {α : Type} (xs : List α) (k : Nat) (v d : α) (h : k < xs.length) :
    (xs.set k v).getD k d = v := by
  rw [List.getD_eq_getElem?_getD, List.getElem?_set_self h]
  rfl

theorem getD_set_ne {α : Type} (xs : List α) {k j : Nat} (v d : α) (h : k ≠ j) :
    (xs.set k v).getD j d = xs.getD j d := by
  rw [List.getD_eq_getElem?_getD, List.getElem?_set_ne h, ← List.getD_eq_getElem?_getD]

theorem length_setCell (g : Grid) (k l : Nat) (v : Option ChessPiece) :
    List.length (setCell g k l v) = List.length g := by
  unfold setCell
  exact List.length_set ..

theorem rowLen_setCell (g : Grid) (k l : Nat) (v : Option ChessPiece) (j : Nat) :
    rowLen (setCell g k l v) j = rowLen g j := by
  unfold rowLen setCell
  by_cases hkj : k = j
  · subst hkj
    by_cases hk : k < List.length g
    · rw [getD_set_self _ _ _ _ hk, List.length_set]
    · rw [List.set_eq_of_length_le (Nat.le_of_not_lt hk)]
  · rw [getD_set_ne _ _ _ hkj]

theorem cellAtN_setCell_self {g : Grid} {k l : Nat} (hk : k < List.length g)
    (hl : l < rowLen g k) (v : Option ChessPiece) :
    cellAtN (setCell g k l v) k l = v := by
  unfold cellAtN setCell
  rw [getD_set_self _ _ _ _ hk, getD_set_self _ _ _ _ hl]

theorem cellAtN_setCell_ne {g : Grid} {k l : Nat} (v : Option ChessPiece) {j m : Nat}
    (h : ¬(j = k ∧ m = l)) :
    cellAtN (setCell g k l v) j m = cellAtN g j m := by
  unfold cellAtN setCell
  by_cases hjk : j = k
  · subst hjk
    have hml : l ≠ m := fun hml => h ⟨rfl, hml.symm⟩
    by_cases hk : j < List.length g
    · rw [getD_set_self _ _ _ _ hk, getD_set_ne _ _ _ hml]
    · rw [List.set_eq_of_length_le (Nat.le_of_not_lt hk)]
  · rw [getD_set_ne _ _ _ (Ne.symm hjk)]

theorem pyIdx2_eq_some {g : Grid} {r c : Int} {k l : Nat} :
    pyIdx2 g r c = some (k, l) ↔
      pyIdx (List.length g) r = some k ∧ pyIdx (rowLen g k) c = some l := by
  simp only [pyIdx2, Option.bind_eq_some, Option.map_eq_some', Prod.mk.injEq]
  constructor
  · rintro ⟨k0, hk, l0, hl, rfl, rfl⟩
    exact ⟨hk, hl⟩
  · rintro ⟨hk, hl⟩
    exact ⟨k, hk, l, hl, rfl, rfl⟩

theorem pyIdx2_congr {g g' : Grid} (hlen : List.length g' = List.length g)
    (hrow : ∀ k, rowLen g' k = rowLen g k) (r c : Int) :
    pyIdx2 g' r c = pyIdx2 g r c := by
  unfold pyIdx2
  rw [hlen]
  cases h1 : pyIdx (List.length g) r with
  | none => rfl
  | some k => simp [hrow k]

theorem pyGet2_eq {g : Grid} {r c : Int} {k l : Nat} (h : pyIdx2 g r c = some (k, l)) :
    pyGet2 g r c = some (cellAtN g k l) := by
  unfold pyGet2
  rw [h]
  rfl

theorem pySet2_eq {g : Grid} {r c : Int} {k l : Nat} (h : pyIdx2 g r c = some (k, l))
    (v : Option ChessPiece) :
    pySet2 g r c v = some (setCell g k l v) := by
  unfold pySet2 setCell
  rw [h]
  rfl

theorem pyGet2_some_inv {g : Grid} {r c : Int} {x : Option ChessPiece}
    (h : pyGet2 g r c = some x) :
    ∃ k l, pyIdx2 g r c = some (k, l) ∧ cellAtN g k l = x := by
  unfold pyGet2 at h
  rw [Option.map_eq_some'] at h
  obtain ⟨kl, h1, h2⟩ := h
  exact ⟨kl.1, kl.2, by rw [h1], h2⟩

theorem pyGet2_isSome_iff {g : Grid} {r c : Int} :
    (pyGet2 g r c).isSome ↔ (pyIdx2 g r c).isSome := by
  unfold pyGet2
  cases pyIdx2 g r c <;> simp

theorem WF_pyIdx2 {b : ChessBoard} (h : WF b) {r c : Int} (h1 : 0 ≤ r) (h2 : r < 8)
    (h3 : 0 ≤ c) (h4 : c < 8) :
    pyIdx2 b.board r c = some (r.toNat, c.toNat) := by
  obtain ⟨_, hlen, hrow⟩ := h
  refine pyIdx2_eq_some.mpr ⟨?_, ?_⟩
  · rw [hlen]
    exact pyIdx_of_bounds h1 (by exact_mod_cast h2)
  · rw [hrow r.toNat (by omega)]
    exact pyIdx_of_bounds h3 (by exact_mod_cast h4)

/-! ### Characterisation of `is_valid_move` and `move_piece` -/

theorem is_valid_move_of_oob {b : ChessBoard} (hWF : WF b) (p : ChessPiece) {tr tc : Int}
    (h : tr < 0 ∨ 8 ≤ tr ∨ tc < 0 ∨ 8 ≤ tc) :
    is_valid_move b p tr tc = some false := by
  unfold is_valid_move
  rw [if_pos]
  rw [hWF.1]
  exact_mod_cast h

theorem is_valid_move_of_bounds {b : ChessBoard} (hWF : WF b) (p : ChessPiece) {tr tc : Int}
    (h0 : 0 ≤ tr) (h1 : tr < 8) (h2 : 0 ≤ tc) (h3 : tc < 8) :
    is_valid_move b p tr tc = some (!sameColorAt b p tr.toNat tc.toNat) := by
  unfold is_valid_move
  rw [if_neg, pyGet2_eq (WF_pyIdx2 hWF h0 h1 h2 h3), Option.map_some']
  · unfold sameColorAt
    cases cellAtN b.board tr.toNat tc.toNat with
    | none => rfl
    | some q => simp
  · rw [hWF.1]
    push_neg
    refine ⟨h0, by exact_mod_cast h1, h2, by exact_mod_cast h3⟩

theorem is_valid_move_isSome {b : ChessBoard} (hWF : WF b) (p : ChessPiece) (tr tc : Int) :
    (is_valid_move b p tr tc).isSome := by
  by_cases h : tr < 0 ∨ 8 ≤ tr ∨ tc < 0 ∨ 8 ≤ tc
  · rw [is_valid_move_of_oob hWF p h]
    rfl
  · push_neg at h
    rw [is_valid_move_of_bounds hWF p (by omega) (by omega) (by omega) (by omega)]
    rfl

theorem move_piece_false_inv {b : ChessBoard} {fr fc tr tc : Int} {b' : ChessBoard}
    (h : move_piece b fr fc tr tc = some (false, b')) : b' = b := by
  unfold move_piece at h
  cases h1 : pyGet2 b.board fr fc with
  | none => rw [h1] at h; cases h
  | some cell =>
    rw [h1] at h
    cases cell with
    | none =>
      simp only [Option.some.injEq, Prod.mk.injEq] at h
      exact h.2.symm
    | some p =>
      simp only at h
      by_cases hc : p.color = b.current_turn
      · rw [if_neg (not_not_intro hc)] at h
        cases h2 : is_valid_move b p tr tc with
        | none => rw [h2] at h; cases h
        | some v =>
          rw [h2] at h
          cases v with
          | false =>
            simp only [Option.some.injEq, Prod.mk.injEq] at h
            exact h.2.symm
          | true =>
            simp only at h
            cases h3 : pyGet2 b.board tr tc with
            | none => rw [h3] at h; cases h
            | some cap =>
              rw [h3] at h
              simp only at h
              cases h4 : pySet2 b.board tr tc
                  (some { p with row := tr, col := tc, has_moved := true }) with
              | none => rw [h4] at h; cases h
              | some g1 =>
                rw [h4] at h
                simp only at h
                cases h5 : pySet2 g1 fr fc none with
                | none => rw [h5] at h; cases h
                | some g2 =>
                  rw [h5] at h
                  simp only [Option.some.injEq, Prod.mk.injEq] at h
                  exact absurd h.1 (by simp)
      · rw [if_pos hc] at h
        simp only [Option.some.injEq, Prod.mk.injEq] at h
        exact h.2.symm

/-- Full inversion of the success path of `move_piece`: the checks that
must have passed, the normalised source (ks, ls) and destination
(kd, ld) cells, and the exact post-state. -/
theorem move_piece_success_inv {b : ChessBoard} {fr fc tr tc : Int} {b' : ChessBoard}
    (h : move_piece b fr fc tr tc = some (true, b')) :
    ∃ p cap ks ls kd ld,
      pyIdx2 b.board fr fc = some (ks, ls) ∧
      cellAtN b.board ks ls = some p ∧
      p.color = b.current_turn ∧
      0 ≤ tr ∧ tr < (b.size : Int) ∧ 0 ≤ tc ∧ tc < (b.size : Int) ∧
      pyIdx2 b.board tr tc = some (kd, ld) ∧
      (kd : Int) = tr ∧ (ld : Int) = tc ∧
      cellAtN b.board kd ld = cap ∧
      (∀ q, cap = some q → ¬(q.color = p.color)) ∧
      ¬(ks = kd ∧ ls = ld) ∧
      b' = { b with
             board := setCell (setCell b.board kd ld
                        (some { p with row := tr, col := tc, has_moved := true })) ks ls none
             current_turn := b.current_turn.opposite
             move_history := b.move_history ++
               [{ piece := p, fromPos := (fr, fc), toPos := (tr, tc), captured := cap }] } := by
  unfold move_piece at h
  cases h1 : pyGet2 b.board fr fc with
  | none => rw [h1] at h; cases h
  | some cell =>
    rw [h1] at h
    cases cell with
    | none => simp at h
    | some p =>
      simp only at h
      by_cases hc : p.color = b.current_turn
      case neg => rw [if_pos hc] at h; simp at h
      rw [if_neg (not_not_intro hc)] at h
      cases h2 : is_valid_move b p tr tc with
      | none => rw [h2] at h; cases h
      | some v =>
        rw [h2] at h
        cases v with
        | false => simp at h
        | true =>
          simp only at h
          have hbounds : 0 ≤ tr ∧ tr < (b.size : Int) ∧ 0 ≤ tc ∧ tc < (b.size : Int) := by
            unfold is_valid_move at h2
            split at h2
            · cases h2
            · rename_i hoob
              push_neg at hoob
              exact ⟨hoob.1, hoob.2.1, hoob.2.2.1, hoob.2.2.2⟩
          obtain ⟨htr0, htrs, htc0, htcs⟩ := hbounds
          cases h3 : pyGet2 b.board tr tc with
          | none => rw [h3] at h; cases h
          | some cap =>
            rw [h3] at h
            simp only at h
            have hcapcol : ∀ q, cap = some q → ¬(q.color = p.color) := by
              unfold is_valid_move at h2
              rw [if_neg (by push_neg; exact ⟨htr0, htrs, htc0, htcs⟩), h3,
                Option.map_some'] at h2
              intro q hq
              rw [hq] at h2
              simpa using h2
            obtain ⟨ks, ls, hks, hcellks⟩ := pyGet2_some_inv h1
            obtain ⟨kd, ld, hkd, hcellkd⟩ := pyGet2_some_inv h3
            have hkdi : (kd : Int) = tr ∧ tr < (List.length b.board : Int) :=
              pyIdx_nonneg_eq htr0 (pyIdx2_eq_some.mp hkd).1
            have hldi : (ld : Int) = tc ∧ tc < (rowLen b.board kd : Int) :=
              pyIdx_nonneg_eq htc0 (pyIdx2_eq_some.mp hkd).2
            have hset1 := pySet2_eq hkd
              (some { p with row := tr, col := tc, has_moved := true })
            rw [hset1] at h
            simp only at h
            have hidxg1 : pyIdx2 (setCell b.board kd ld
                (some { p with row := tr, col := tc, has_moved := true })) fr fc =
                some (ks, ls) := by
              rw [pyIdx2_congr (length_setCell ..) (rowLen_setCell b.board kd ld _) fr fc]
              exact hks
            rw [pySet2_eq hidxg1 none] at h
            simp only [Option.some.injEq, Prod.mk.injEq, true_and] at h
            have halias : ¬(ks = kd ∧ ls = ld) := by
              rintro ⟨rfl, rfl⟩
              rw [hcellks] at hcellkd
              exact hcapcol p hcellkd.symm rfl
            exact ⟨p, cap, ks, ls, kd, ld, hks, hcellks, hc, htr0, htrs, htc0, htcs,
              hkd, hkdi.1, hldi.1, hcellkd, hcapcol, halias, h.symm⟩

/-- Forward run of the success path: when all four documented conditions
hold, `move_piece` returns `true`. -/
theorem move_piece_succeeds {b : ChessBoard} {p : ChessPiece} {ks ls : Nat} (hWF : WF b)
    {fr fc tr tc : Int}
    (hks : pyIdx2 b.board fr fc = some (ks, ls))
    (hcellks : cellAtN b.board ks ls = some p)
    (hcol : p.color = b.current_turn)
    (htr0 : 0 ≤ tr) (htr8 : tr < 8) (htc0 : 0 ≤ tc) (htc8 : tc < 8)
    (hcap : ∀ q, pyGet2 b.board tr tc = some (some q) → ¬(q.color = p.color)) :
    move_piece b fr fc tr tc =
      some (true, { b with
        board := setCell (setCell b.board tr.toNat tc.toNat
                   (some { p with row := tr, col := tc, has_moved := true })) ks ls none
        current_turn := b.current_turn.opposite
        move_history := b.move_history ++
          [{ piece := p, fromPos := (fr, fc), toPos := (tr, tc),
             captured := cellAtN b.board tr.toNat tc.toNat }] }) := by
  have hsrc : pyGet2 b.board fr fc = some (some p) := by
    rw [pyGet2_eq hks, hcellks]
  have hidx : pyIdx2 b.board tr tc = some (tr.toNat, tc.toNat) :=
    WF_pyIdx2 hWF htr0 htr8 htc0 htc8
  have hdest : pyGet2 b.board tr tc = some (cellAtN b.board tr.toNat tc.toNat) :=
    pyGet2_eq hidx
  have hvalid : is_valid_move b p tr tc = some true := by
    rw [is_valid_move_of_bounds hWF p htr0 htr8 htc0 htc8]
    unfold sameColorAt
    cases hcell : cellAtN b.board tr.toNat tc.toNat with
    | none => rfl
    | some q =>
      have hq := hcap q (by rw [hdest, hcell])
      simp [hq]
  have hset1 := pySet2_eq hidx (some { p with row := tr, col := tc, has_moved := true })
  have hidxg1 : pyIdx2 (setCell b.board tr.toNat tc.toNat
      (some { p with row := tr, col := tc, has_moved := true })) fr fc = some (ks, ls) := by
    rw [pyIdx2_congr (length_setCell ..) (rowLen_setCell b.board tr.toNat tc.toNat _) fr fc]
    exact hks
  unfold move_piece
  rw [hsrc]
  simp only
  rw [if_neg (not_not_intro hcol), hvalid]
  simp only
  rw [hdest]
  simp only
  rw [hset1]
  simp only
  rw [pySet2_eq hidxg1 none]

/-- Under the maintained 8×8 shape, `move_piece` raises iff the source
coordinates fall outside Python's accepted range `[-8, 8)`. -/
theorem move_piece_isSome_iff {b : ChessBoard} (hWF : WF b) (fr fc tr tc : Int) :
    (move_piece b fr fc tr tc).isSome ↔
      (-8 ≤ fr ∧ fr < 8 ∧ -8 ≤ fc ∧ fc < 8) := by
  have hlen : List.length b.board = 8 := hWF.2.1
  constructor
  · intro h
    unfold move_piece at h
    cases h1 : pyGet2 b.board fr fc with
    | none => rw [h1] at h; cases h
    | some cell =>
      obtain ⟨ks, ls, hks, _⟩ := pyGet2_some_inv h1
      obtain ⟨hk, hl⟩ := pyIdx2_eq_some.mp hks
      have hkr : (pyIdx (List.length b.board) fr).isSome := by rw [hk]; rfl
      have hlr : (pyIdx (rowLen b.board ks) fc).isSome := by rw [hl]; rfl
      rw [pyIdx_isSome_iff, hlen] at hkr
      have hks8 : ks < 8 := by
        have := pyIdx_some_lt hk
        omega
      rw [pyIdx_isSome_iff, hWF.2.2 ks hks8] at hlr
      constructor
      · exact_mod_cast hkr.1
      refine ⟨by exact_mod_cast hkr.2, ?_, ?_⟩
      · exact_mod_cast hlr.1
      · exact_mod_cast hlr.2
  · rintro ⟨h1, h2, h3, h4⟩
    have hsrc : (pyGet2 b.board fr fc).isSome := by
      rw [pyGet2_isSome_iff]
      have hk : (pyIdx (List.length b.board) fr).isSome := by
        rw [pyIdx_isSome_iff, hlen]
        constructor
        · exact_mod_cast h1
        · exact_mod_cast h2
      rw [Option.isSome_iff_exists] at hk
      obtain ⟨k, hk⟩ := hk
      have hk8 : k < 8 := by
        have := pyIdx_some_lt hk
        omega
      have hl : (pyIdx (rowLen b.board k) fc).isSome := by
        rw [pyIdx_isSome_iff, hWF.2.2 k hk8]
        constructor
        · exact_mod_cast h3
        · exact_mod_cast h4
      rw [Option.isSome_iff_exists] at hl
      obtain ⟨l, hl⟩ := hl
      have : pyIdx2 b.board fr fc = some (k, l) := pyIdx2_eq_some.mpr ⟨hk, hl⟩
      rw [this]
      rfl
    rw [Option.isSome_iff_exists] at hsrc
    obtain ⟨cell, hcell⟩ := hsrc
    cases cell with
    | none =>
      unfold move_piece
      rw [hcell]
      rfl
    | some p =>
      by_cases hc : p.color = b.current_turn
      case neg =>
        unfold move_piece
        rw [hcell]
        simp only
        rw [if_pos hc]
        rfl
      by_cases hv : tr < 0 ∨ 8 ≤ tr ∨ tc < 0 ∨ 8 ≤ tc
      · unfold move_piece
        rw [hcell]
        simp only
        rw [if_neg (not_not_intro hc), is_valid_move_of_oob hWF p hv]
        rfl
      push_neg at hv
      obtain ⟨htr0, htr8, htc0, htc8⟩ := hv
      cases hsc : sameColorAt b p tr.toNat tc.toNat with
      | true =>
        unfold move_piece
        rw [hcell]
        simp only
        rw [if_neg (not_not_intro hc), is_valid_move_of_bounds hWF p htr0 htr8 htc0 htc8, hsc]
        rfl
      | false =>
        have hcap : ∀ q, pyGet2 b.board tr tc = some (some q) → ¬(q.color = p.color) := by
          intro q hq
          have hidx : pyIdx2 b.board tr tc = some (tr.toNat, tc.toNat) :=
            WF_pyIdx2 hWF htr0 htr8 htc0 htc8
          rw [pyGet2_eq hidx] at hq
          injection hq with hq
          unfold sameColorAt at hsc
          rw [hq] at hsc
          simpa using hsc
        obtain ⟨ks, ls, hks, hcellks⟩ := pyGet2_some_inv hcell
        rw [move_piece_succeeds hWF hks hcellks hc htr0 htr8 htc0 htc8 hcap]
        rfl

/-! ### The claims -/

/-- Claim C1: for every well-formed board state and all integer
coordinates, `move_piece(fr, fc, tr, tc)` returns `True` iff the source
cell (the grid cell the code addresses, with Python index semantics)
holds a piece, that piece's colour equals `current_turn`, the
destination lies in `[0, 8)` in both components, and the destination
cell is not occupied by a same-colour piece. -/
theorem move_piece_success_iff (b : ChessBoard) (fr fc tr tc : Int) (hWF : WF b) :
    (move_piece b fr fc tr tc).map Prod.fst = some true ↔
      ∃ p, pyGet2 b.board fr fc = some (some p) ∧
        p.color = b.current_turn ∧
        0 ≤ tr ∧ tr < 8 ∧ 0 ≤ tc ∧ tc < 8 ∧
        (∀ q, pyGet2 b.board tr tc = some (some q) → ¬(q.color = p.color)) := by
  constructor
  · intro h
    rw [Option.map_eq_some'] at h
    obtain ⟨⟨res, b2⟩, hmv, hres⟩ := h
    cases res with
    | false => simp at hres
    | true =>
      obtain ⟨p, cap, ks, ls, kd, ld, hks, hcellks, hc, htr0, htrs, htc0, htcs, hkd,
        hkdi, hldi, hcellkd, hcapcol, halias, hb2⟩ := move_piece_success_inv hmv
      refine ⟨p, by rw [pyGet2_eq hks, hcellks], hc, htr0, ?_, htc0, ?_, ?_⟩
      · rw [hWF.1] at htrs
        exact_mod_cast htrs
      · rw [hWF.1] at htcs
        exact_mod_cast htcs
      · intro q hq
        rw [pyGet2_eq hkd, hcellkd] at hq
        injection hq with hq
        exact hcapcol q hq
  · rintro ⟨p, hsrc, hc, htr0, htr8, htc0, htc8, hcap⟩
    obtain ⟨ks, ls, hks, hcellks⟩ := pyGet2_some_inv hsrc
    rw [move_piece_succeeds hWF hks hcellks hc htr0 htr8 htc0 htc8 hcap]
    rfl

/-- Witness for C1 at a concrete input: the white pawn move (6,4) → (4,4)
on the fresh board satisfies all four conditions, so the call returns `True`. -/
theorem move_piece_success_iff_w :
    (move_piece initBoard 6 4 4 4).map Prod.fst = some true := by
  refine (move_piece_success_iff initBoard 6 4 4 4 (by decide)).mpr
    ⟨mkPiece PieceType.PAWN Color.WHITE 6 4, by decide, by decide, by decide, by decide,
     by decide, by decide, ?_⟩
  intro q hq
  have hcell : pyGet2 initBoard.board 4 4 = some none := by decide
  rw [hcell] at hq
  simp at hq

/-- Claim C2: whenever `move_piece` returns `False`, the post-call state
equals the pre-call state — the grid (hence every piece's row, col and
has_moved fields, which live in the grid cells), the move history and
the current turn are all exactly as they were; no partial mutation is
observable on any failure path. -/
theorem move_piece_failure_preserves_state (b : ChessBoard) (fr fc tr tc : Int)
    (b2 : ChessBoard) (h : move_piece b fr fc tr tc = some (false, b2)) :
    b2 = b ∧ b2.board = b.board ∧ b2.move_history = b.move_history ∧
      b2.current_turn = b.current_turn := by
  have he := move_piece_false_inv h
  subst he
  exact ⟨rfl, rfl, rfl, rfl⟩

/-- Witness for C2 at a concrete input: moving the black pawn at (1,0)
while it is white's turn fails and leaves the fresh board unchanged. -/
theorem move_piece_failure_preserves_state_w :
    initBoard = initBoard ∧ initBoard.board = initBoard.board ∧
      initBoard.move_history = initBoard.move_history ∧
      initBoard.current_turn = initBoard.current_turn :=
  move_piece_failure_preserves_state initBoard 1 0 2 0 initBoard (by decide)

/-- Claim C9, counterexample to the claimed precondition: with source
row −1 — outside `0 ≤ fromRow < 8` — every grid access in `move_piece`
is still in range (the call does not raise), and the move even succeeds,
because Python wraps negative list indices: `board[-1][0]` is the white
rook at (7,0). -/
theorem move_piece_negative_src_in_range :
    ¬(0 ≤ (-1 : Int)) ∧ (move_piece initBoard (-1) 0 4 4).isSome = true ∧
      (move_piece initBoard (-1) 0 4 4).map Prod.fst = some true := by
  refine ⟨by decide, by decide, by decide⟩

/-- Claim C9 (amended): on a well-formed board, every grid access in
`move_piece` is in range — the call returns rather than raising
`IndexError` — iff the source coordinates lie in Python's accepted
index range `[-8, 8)` in both components; the destination coordinates
may be arbitrary integers because `is_valid_move` bounds-checks them
before any destination access. -/
theorem move_piece_access_in_range_iff (b : ChessBoard) (fr fc tr tc : Int) (hWF : WF b) :
    (move_piece b fr fc tr tc).isSome ↔ (-8 ≤ fr ∧ fr < 8 ∧ -8 ≤ fc ∧ fc < 8) :=
  move_piece_isSome_iff hWF fr fc tr tc

/-- Witness for C9 (amended) at a concrete input: on the fresh board the
call with source (−1, 0) is in Python's accepted range and raises nothing. -/
theorem move_piece_access_in_range_iff_w :
    (move_piece initBoard (-1) 0 4 4).isSome ↔
      (-8 ≤ (-1 : Int) ∧ (-1 : Int) < 8 ∧ -8 ≤ (0 : Int) ∧ (0 : Int) < 8) :=
  move_piece_access_in_range_iff initBoard (-1) 0 4 4 (by decide)

/-- Claim C10: for every well-formed board state and in-bounds cell
(r, c), the null move `move_piece(r, c, r, c)` returns `False` and
changes nothing: an empty cell fails the non-empty-source check, and an
occupied cell of the side to move fails the same-colour-destination
check because the destination piece is the moving piece itself. -/
theorem null_move_rejected (b : ChessBoard) (r c : Int) (hWF : WF b)
    (h0 : 0 ≤ r) (h1 : r < 8) (h2 : 0 ≤ c) (h3 : c < 8) :
    move_piece b r c r c = some (false, b) := by
  have hidx := WF_pyIdx2 hWF h0 h1 h2 h3
  have hget : pyGet2 b.board r c = some (cellAtN b.board r.toNat c.toNat) := pyGet2_eq hidx
  unfold move_piece
  rw [hget]
  cases hcell : cellAtN b.board r.toNat c.toNat with
  | none => rfl
  | some p =>
    simp only
    by_cases hc : p.color = b.current_turn
    · rw [if_neg (not_not_intro hc)]
      have hv : is_valid_move b p r c = some false := by
        rw [is_valid_move_of_bounds hWF p h0 h1 h2 h3]
        unfold sameColorAt
        rw [hcell]
        simp
      rw [hv]
    · rw [if_pos hc]

/-- Witness for C10 at a concrete input: the null move on the occupied
cell (7,0) and on the empty cell (4,4) of the fresh board both return
`False` and leave the board unchanged. -/
theorem null_move_rejected_w :
    move_piece initBoard 7 0 7 0 = some (false, initBoard) ∧
      move_piece initBoard 4 4 4 4 = some (false, initBoard) :=
  ⟨null_move_rejected initBoard 7 0 (by decide) (by decide) (by decide) (by decide) (by decide),
   null_move_rejected initBoard 4 4 (by decide) (by decide) (by decide) (by decide) (by decide)⟩

theorem cellAtN_some_lt {g : Grid} {k l : Nat} {p : ChessPiece}
    (h : cellAtN g k l = some p) : k < List.length g ∧ l < rowLen g k := by
  unfold cellAtN at h
  by_cases hk : k < List.length g
  · refine ⟨hk, ?_⟩
    by_cases hl : l < rowLen g k
    · exact hl
    · unfold rowLen at hl
      rw [List.getD_eq_default _ _ (Nat.le_of_not_lt hl)] at h
      cases h
  · rw [List.getD_eq_default _ _ (Nat.le_of_not_lt hk)] at h
    simp at h

/-- Claim C3: whenever `move_piece` returns `True`, the turn has flipped
to the opposite colour, the destination cell of the post-state holds the
moved piece with its stored (row, col) equal to the destination and
`has_moved = true`, and the (Python-addressed) source cell is empty. -/
theorem move_piece_success_postconditions (b : ChessBoard) (fr fc tr tc : Int)
    (b2 : ChessBoard) (h : move_piece b fr fc tr tc = some (true, b2)) :
    b2.current_turn = b.current_turn.opposite ∧
    ∃ p q, pyGet2 b.board fr fc = some (some p) ∧
      pyGet2 b2.board tr tc = some (some q) ∧
      q = { p with row := tr, col := tc, has_moved := true } ∧
      q.row = tr ∧ q.col = tc ∧ q.has_moved = true ∧
      pyGet2 b2.board fr fc = some none := by
  obtain ⟨p, cap, ks, ls, kd, ld, hks, hcellks, hc, htr0, htrs, htc0, htcs, hkd,
    hkdi, hldi, hcellkd, hcapcol, halias, hb2⟩ := move_piece_success_inv h
  have hkd_lt : kd < List.length b.board := pyIdx_some_lt (pyIdx2_eq_some.mp hkd).1
  have hld_lt : ld < rowLen b.board kd := pyIdx_some_lt (pyIdx2_eq_some.mp hkd).2
  have hks_lt : ks < List.length b.board := pyIdx_some_lt (pyIdx2_eq_some.mp hks).1
  have hls_lt : ls < rowLen b.board ks := pyIdx_some_lt (pyIdx2_eq_some.mp hks).2
  subst hb2
  have hlen : ∀ v v2, List.length (setCell (setCell b.board kd ld v) ks ls v2) =
      List.length b.board := by
    intro v v2
    rw [length_setCell, length_setCell]
  have hrow : ∀ v v2 j, rowLen (setCell (setCell b.board kd ld v) ks ls v2) j =
      rowLen b.board j := by
    intro v v2 j
    rw [rowLen_setCell, rowLen_setCell]
  refine ⟨rfl, p, { p with row := tr, col := tc, has_moved := true },
    by rw [pyGet2_eq hks, hcellks], ?_, rfl, rfl, rfl, rfl, ?_⟩
  · rw [pyGet2_eq (by rw [pyIdx2_congr (hlen _ _) (hrow _ _)]; exact hkd)]
    rw [cellAtN_setCell_ne none (fun hh => halias ⟨hh.1.symm, hh.2.symm⟩),
      cellAtN_setCell_self hkd_lt hld_lt]
  · rw [pyGet2_eq (by rw [pyIdx2_congr (hlen _ _) (hrow _ _)]; exact hks)]
    rw [cellAtN_setCell_self (by rw [length_setCell]; exact hks_lt)
      (by rw [rowLen_setCell]; exact hls_lt)]

/-- Witness for C3 at a concrete input: after the successful pawn
advance (6,4) → (4,4) on a fresh board. -/
theorem move_piece_success_postconditions_w :
    pawnOpening.current_turn = initBoard.current_turn.opposite ∧
    ∃ p q, pyGet2 initBoard.board 6 4 = some (some p) ∧
      pyGet2 pawnOpening.board 4 4 = some (some q) ∧
      q = { p with row := 4, col := 4, has_moved := true } ∧
      q.row = 4 ∧ q.col = 4 ∧ q.has_moved = true ∧
      pyGet2 pawnOpening.board 6 4 = some none :=
  move_piece_success_postconditions initBoard 6 4 4 4 pawnOpening (by decide)

/-- Claim C4: on a coordinate-coherent board a failed `move_piece`
appends nothing to `move_history`, and a successful one appends exactly
one record whose `captured` field is exactly the pre-move content of the
destination cell; when that content was a piece, it was of the opposite
colour and occurs nowhere in the post-move grid. -/
theorem move_piece_history_update (b : ChessBoard) (fr fc tr tc : Int)
    (hcoh : gridCoherent b.board) :
    (∀ b2, move_piece b fr fc tr tc = some (false, b2) →
      b2.move_history = b.move_history) ∧
    (∀ b2, move_piece b fr fc tr tc = some (true, b2) →
      ∃ mr cap, b2.move_history = b.move_history ++ [mr] ∧
        pyGet2 b.board tr tc = some cap ∧ mr.captured = cap ∧
        (∀ q, cap = some q →
          ¬(q.color = b.current_turn) ∧ ∀ k l : Nat, ¬(cellAtN b2.board k l = some q))) := by
  constructor
  · intro b2 h
    rw [move_piece_false_inv h]
  · intro b2 h
    obtain ⟨p, cap, ks, ls, kd, ld, hks, hcellks, hc, htr0, htrs, htc0, htcs, hkd,
      hkdi, hldi, hcellkd, hcapcol, halias, hb2⟩ := move_piece_success_inv h
    have hkd_lt : kd < List.length b.board := pyIdx_some_lt (pyIdx2_eq_some.mp hkd).1
    have hld_lt : ld < rowLen b.board kd := pyIdx_some_lt (pyIdx2_eq_some.mp hkd).2
    have hks_lt : ks < List.length b.board := pyIdx_some_lt (pyIdx2_eq_some.mp hks).1
    have hls_lt : ls < rowLen b.board ks := pyIdx_some_lt (pyIdx2_eq_some.mp hks).2
    subst hb2
    refine ⟨_, cap, rfl, by rw [pyGet2_eq hkd, hcellkd], rfl, ?_⟩
    rintro q rfl
    refine ⟨by rw [← hc]; exact hcapcol q rfl, ?_⟩
    intro k l hcell
    by_cases hsrcc : k = ks ∧ l = ls
    · obtain ⟨rfl, rfl⟩ := hsrcc
      rw [cellAtN_setCell_self (by rw [length_setCell]; exact hks_lt)
        (by rw [rowLen_setCell]; exact hls_lt)] at hcell
      cases hcell
    · rw [cellAtN_setCell_ne none hsrcc] at hcell
      by_cases hdst : k = kd ∧ l = ld
      · obtain ⟨rfl, rfl⟩ := hdst
        rw [cellAtN_setCell_self hkd_lt hld_lt] at hcell
        injection hcell with hcell
        exact hcapcol q rfl (by rw [← hcell])
      · rw [cellAtN_setCell_ne _ hdst] at hcell
        obtain ⟨hkl, hll⟩ := cellAtN_some_lt hcell
        obtain ⟨hr, hcc⟩ := hcoh k hkl l hll q hcell
        obtain ⟨hr2, hcc2⟩ := hcoh kd hkd_lt ld hld_lt q hcellkd
        apply hdst
        constructor
        · have : (k : Int) = (kd : Int) := by rw [← hr, ← hr2]
          exact_mod_cast this
        · have : (l : Int) = (ld : Int) := by rw [← hcc, ← hcc2]
          exact_mod_cast this

/-- Witness for C4 at a concrete input: the capturing move (7,0) → (0,0)
on a fresh board appends exactly one record holding the captured black
rook, which is gone from the grid. -/
theorem move_piece_history_update_w :
    ∃ mr cap, rookGrab.move_history = initBoard.move_history ++ [mr] ∧
      pyGet2 initBoard.board 0 0 = some cap ∧ mr.captured = cap ∧
      (∀ q, cap = some q →
        ¬(q.color = initBoard.current_turn) ∧
          ∀ k l : Nat, ¬(cellAtN rookGrab.board k l = some q)) :=
  (move_piece_history_update initBoard 7 0 0 0 (by decide)).2 rookGrab (by decide)

/-- Claim C5: the board invariant — every occupied grid cell holds
exactly one piece whose stored (row, col) equals that cell's
coordinates, and a cell is occupied iff some on-grid piece stores its
coordinates — holds for the freshly constructed board and is preserved
by every `move_piece` call, whether it returns `True` or `False`.
(In this embedding a cell holds at most one piece by construction; the
content of the invariant is `gridCoherent`, from which the
occupied-iff-some-piece-stores-(r,c) form follows, stated as the third
conjunct.) -/
theorem board_invariant_preserved :
    gridCoherent initBoard.board ∧
    (∀ (b : ChessBoard) (fr fc tr tc : Int) (res : Bool) (b2 : ChessBoard),
      gridCoherent b.board → move_piece b fr fc tr tc = some (res, b2) →
      gridCoherent b2.board) ∧
    (∀ g : Grid, gridCoherent g → ∀ k l : Nat,
      (∃ p, cellAtN g k l = some p) ↔
        ∃ p, (∃ k0 l0 : Nat, cellAtN g k0 l0 = some p) ∧
          p.row = (k : Int) ∧ p.col = (l : Int)) := by
  refine ⟨by decide, ?_, ?_⟩
  · intro b fr fc tr tc res b2 hcoh h
    cases res with
    | false =>
      rw [move_piece_false_inv h]
      exact hcoh
    | true =>
      obtain ⟨p, cap, ks, ls, kd, ld, hks, hcellks, hc, htr0, htrs, htc0, htcs, hkd,
        hkdi, hldi, hcellkd, hcapcol, halias, hb2⟩ := move_piece_success_inv h
      have hkd_lt : kd < List.length b.board := pyIdx_some_lt (pyIdx2_eq_some.mp hkd).1
      have hld_lt : ld < rowLen b.board kd := pyIdx_some_lt (pyIdx2_eq_some.mp hkd).2
      have hks_lt : ks < List.length b.board := pyIdx_some_lt (pyIdx2_eq_some.mp hks).1
      have hls_lt : ls < rowLen b.board ks := pyIdx_some_lt (pyIdx2_eq_some.mp hks).2
      subst hb2
      intro k hk l hl q hcell
      rw [length_setCell, length_setCell] at hk
      rw [rowLen_setCell, rowLen_setCell] at hl
      by_cases hsrcc : k = ks ∧ l = ls
      · obtain ⟨rfl, rfl⟩ := hsrcc
        rw [cellAtN_setCell_self (by rw [length_setCell]; exact hks_lt)
          (by rw [rowLen_setCell]; exact hls_lt)] at hcell
        cases hcell
      · rw [cellAtN_setCell_ne none hsrcc] at hcell
        by_cases hdst : k = kd ∧ l = ld
        · obtain ⟨rfl, rfl⟩ := hdst
          rw [cellAtN_setCell_self hkd_lt hld_lt] at hcell
          injection hcell with hcell
          rw [← hcell]
          exact ⟨hkdi.symm, hldi.symm⟩
        · rw [cellAtN_setCell_ne _ hdst] at hcell
          exact hcoh k hk l hl q hcell
  · intro g hcoh k l
    constructor
    · rintro ⟨p, hp⟩
      obtain ⟨hkl, hll⟩ := cellAtN_some_lt hp
      obtain ⟨hr, hcc⟩ := hcoh k hkl l hll p hp
      exact ⟨p, ⟨k, l, hp⟩, hr, hcc⟩
    · rintro ⟨p, ⟨k0, l0, hp⟩, hr, hcc⟩
      obtain ⟨hkl, hll⟩ := cellAtN_some_lt hp
      obtain ⟨hr0, hcc0⟩ := hcoh k0 hkl l0 hll p hp
      have hkk : k0 = k := by
        have : (k0 : Int) = (k : Int) := by rw [← hr0, hr]
        exact_mod_cast this
      have hlz : l0 = l := by
        have : (l0 : Int) = (l : Int) := by rw [← hcc0, hcc]
        exact_mod_cast this
      subst hkk
      subst hlz
      exact ⟨p, hp⟩

/-- Witness for C5 at a concrete input: the invariant, established for
the fresh board, is carried through the successful move (6,4) → (4,4). -/
theorem board_invariant_preserved_w : gridCoherent pawnOpening.board :=
  board_invariant_preserved.2.1 initBoard 6 4 4 4 true pawnOpening (by decide) (by decide)

/-- Claim C6: the freshly constructed board has exactly 32 pieces, 16
of each colour; black's back rank on row 0 ordered Rook, Knight, Bishop,
Queen, King, Bishop, Knight, Rook (Queen on column 3, King on column 4)
with black pawns filling row 1; white's back rank on row 7 in the same
order with white pawns filling row 6; every piece has
`has_moved = false`; `current_turn = WHITE`; `move_history` empty. -/
theorem initBoard_spec :
    (gridPieces initBoard.board).length = 32 ∧
    ((gridPieces initBoard.board).filter fun p => p.color == Color.WHITE).length = 16 ∧
    ((gridPieces initBoard.board).filter fun p => p.color == Color.BLACK).length = 16 ∧
    ((List.getD initBoard.board 0 []).map fun c => c.map fun p => (p.type, p.color)) =
      ([PieceType.ROOK, PieceType.KNIGHT, PieceType.BISHOP, PieceType.QUEEN,
        PieceType.KING, PieceType.BISHOP, PieceType.KNIGHT, PieceType.ROOK].map
          fun t => some (t, Color.BLACK)) ∧
    ((List.getD initBoard.board 1 []).map fun c => c.map fun p => (p.type, p.color)) =
      List.replicate 8 (some (PieceType.PAWN, Color.BLACK)) ∧
    ((List.getD initBoard.board 6 []).map fun c => c.map fun p => (p.type, p.color)) =
      List.replicate 8 (some (PieceType.PAWN, Color.WHITE)) ∧
    ((List.getD initBoard.board 7 []).map fun c => c.map fun p => (p.type, p.color)) =
      ([PieceType.ROOK, PieceType.KNIGHT, PieceType.BISHOP, PieceType.QUEEN,
        PieceType.KING, PieceType.BISHOP, PieceType.KNIGHT, PieceType.ROOK].map
          fun t => some (t, Color.WHITE)) ∧
    ((gridPieces initBoard.board).all fun p => !p.has_moved) = true ∧
    initBoard.current_turn = Color.WHITE ∧
    initBoard.move_history = [] := by
  decide

/-- Claim C7: `is_valid_move` (pure by its embedded type: it returns a
value and no state) always returns a boolean on a well-formed board,
returns `False` exactly when the target is outside `[0, 8)` in either
component or the target cell holds a piece of the same colour, and its
result depends on the given piece only through that piece's colour — in
particular it performs no piece-kind shape check, path-blocking check,
or check detection. -/
theorem is_valid_move_spec (b : ChessBoard) (p : ChessPiece) (tr tc : Int) (hWF : WF b) :
    (is_valid_move b p tr tc).isSome = true ∧
    (is_valid_move b p tr tc = some false ↔
      ((tr < 0 ∨ 8 ≤ tr ∨ tc < 0 ∨ 8 ≤ tc) ∨
        ∃ q, pyGet2 b.board tr tc = some (some q) ∧ q.color = p.color)) ∧
    (∀ p2 : ChessPiece, p2.color = p.color →
      is_valid_move b p2 tr tc = is_valid_move b p tr tc) := by
  refine ⟨is_valid_move_isSome hWF p tr tc, ?_, ?_⟩
  · constructor
    · intro h
      by_cases hoob : tr < 0 ∨ 8 ≤ tr ∨ tc < 0 ∨ 8 ≤ tc
      · exact Or.inl hoob
      · push_neg at hoob
        obtain ⟨htr0, htr8, htc0, htc8⟩ := hoob
        rw [is_valid_move_of_bounds hWF p htr0 htr8 htc0 htc8] at h
        injection h with h
        rw [Bool.not_eq_false'] at h
        unfold sameColorAt at h
        refine Or.inr ?_
        cases hcell : cellAtN b.board tr.toNat tc.toNat with
        | none => rw [hcell] at h; cases h
        | some q =>
          rw [hcell] at h
          refine ⟨q, ?_, by simpa using h⟩
          rw [pyGet2_eq (WF_pyIdx2 hWF htr0 htr8 htc0 htc8), hcell]
    · intro h
      cases h with
      | inl hoob => exact is_valid_move_of_oob hWF p hoob
      | inr hocc =>
        obtain ⟨q, hq, hqc⟩ := hocc
        by_cases hoob : tr < 0 ∨ 8 ≤ tr ∨ tc < 0 ∨ 8 ≤ tc
        · exact is_valid_move_of_oob hWF p hoob
        · push_neg at hoob
          obtain ⟨htr0, htr8, htc0, htc8⟩ := hoob
          rw [is_valid_move_of_bounds hWF p htr0 htr8 htc0 htc8]
          rw [pyGet2_eq (WF_pyIdx2 hWF htr0 htr8 htc0 htc8)] at hq
          injection hq with hq
          unfold sameColorAt
          rw [hq]
          simp [hqc]
  · intro p2 hp2
    unfold is_valid_move
    simp only [hp2]

/-- Witness for C7 at a concrete input: on the fresh board, for the
white pawn at (6,4), moving to the out-of-bounds square (8,0) is
reported invalid, and the result ignores the piece's kind. -/
theorem is_valid_move_spec_w :
    (is_valid_move initBoard (mkPiece PieceType.PAWN Color.WHITE 6 4) 8 0).isSome = true ∧
    (is_valid_move initBoard (mkPiece PieceType.PAWN Color.WHITE 6 4) 8 0 = some false ↔
      (((8 : Int) < 0 ∨ 8 ≤ (8 : Int) ∨ (0 : Int) < 0 ∨ 8 ≤ (0 : Int)) ∨
        ∃ q, pyGet2 initBoard.board 8 0 = some (some q) ∧
          q.color = (mkPiece PieceType.PAWN Color.WHITE 6 4).color)) ∧
    (∀ p2 : ChessPiece, p2.color = (mkPiece PieceType.PAWN Color.WHITE 6 4).color →
      is_valid_move initBoard p2 8 0 =
        is_valid_move initBoard (mkPiece PieceType.PAWN Color.WHITE 6 4) 8 0) :=
  is_valid_move_spec initBoard (mkPiece PieceType.PAWN Color.WHITE 6 4) 8 0 (by decide)

/-- Claim C8: the glyph of a constructed piece is determined solely by
its (colour, kind) pair through the fixed lookup table `get_symbol`, and
the 12 glyphs assigned to the 12 (colour, kind) combinations are
pairwise distinct: equal glyphs force equal colour and kind. -/
theorem symbol_table_spec :
    ∀ (t : PieceType) (c : Color) (r col : Int) (t2 : PieceType) (c2 : Color)
      (r2 col2 : Int),
      (mkPiece t c r col).symbol = get_symbol c t ∧
      ((mkPiece t c r col).symbol = (mkPiece t2 c2 r2 col2).symbol → c = c2 ∧ t = t2) := by
  intro t c r col t2 c2 r2 col2
  refine ⟨rfl, ?_⟩
  show get_symbol c t = get_symbol c2 t2 → c = c2 ∧ t = t2
  cases c <;> cases t <;> cases c2 <;> cases t2 <;> decide

/-- Witness for C8 at a concrete input: two white queens constructed at
different squares share the queen glyph, and glyph equality recovers
colour and kind. -/
theorem symbol_table_spec_w :
    (mkPiece PieceType.QUEEN Color.WHITE 7 3).symbol = get_symbol Color.WHITE PieceType.QUEEN ∧
      (Color.WHITE = Color.WHITE ∧ PieceType.QUEEN = PieceType.QUEEN) :=
  ⟨(symbol_table_spec PieceType.QUEEN Color.WHITE 7 3 PieceType.QUEEN Color.WHITE 0 0).1,
   (symbol_table_spec PieceType.QUEEN Color.WHITE 7 3 PieceType.QUEEN Color.WHITE 0 0).2 rfl⟩

end ChessGame
